import Mathlib

/-!
Verification of the firmware-log schema loading layer
(`src/fw-logs/fw-logs-xml-helper.cpp`) and the parameter-decode contract of
`fw_string_formatter::generate_message` (declared in
`src/fw-logs/fw-string-formatter.h`).

The underlying XML parser (rapidxml) is an external collaborator: documents
are modelled as already-parsed trees of tagged nodes with ordered attribute
lists and ordered children, exactly the shape the C++ helper walks via
`first_node` / `next_sibling` / `first_attribute` / `next_attribute`.
-/

set_option autoImplicit false

deriving instance DecidableEq for Except

/-- A parsed XML node: tag name, ordered attribute list (name, value) and
ordered children.  Mirrors the rapidxml `xml_node` view the helper code
traverses. -/
inductive XmlNode : Type where
  | node (name : String) (attrs : List (String × String)) (children : List XmlNode)
deriving Inhabited

def XmlNode.name : XmlNode → String
  | .node n _ _ => n

def XmlNode.attrs : XmlNode → List (String × String)
  | .node _ a _ => a

def XmlNode.children : XmlNode → List XmlNode
  | .node _ _ c => c

/-- A parsed document is the ordered list of its top-level nodes
(rapidxml `xml_document` children; `first_node()` is the head). -/
def XmlDoc : Type := List XmlNode

/-- Errors thrown by the helper (all are `librealsense::invalid_value_exception`
in the C++; we keep the distinguishing message data). -/
inductive XmlError : Type where
  /-- "Empty XML content" in `load_external_xml`. -/
  | emptyInput
  /-- the C++ `get_first_node` dereferences `document->first_node()` without a
  null check; an empty document is undefined behavior, modelled as its own
  error value. -/
  | nullRootDeref
  /-- "XML root should be 'Format'". -/
  | unexpectedRoot
  /-- "Can't find attribute A in node T" (tag, attribute). -/
  | missingAttribute (tag : String) (attrName : String)
  /-- `std::stoi` throwing on a non-numeric attribute value. -/
  | notANumber
  /-- "Did not find 'Source' node with id I". -/
  | sourceNotFound (id : Int)
  /-- "Did not find 'File' attribute for source I". -/
  | missingFilePath (id : Int)
  /-- "Can't find event 'numberOfArguments' or 'format'". -/
  | missingEventAttribute
  /-- "Can't find EnumValue 'Key' or 'Value' for enum T". -/
  | missingEnumValueAttribute (tag : String)
deriving DecidableEq

/-- Decimal digit value of a character, if it is a digit. -/
def digit_val (c : Char) : Option Nat :=
  if 48 ≤ c.toNat ∧ c.toNat ≤ 57 then some (c.toNat - 48) else none

/-- Accumulating decimal parse of a digit list; `none` on any non-digit. -/
def parse_nat_digits : List Char → Nat → Option Nat
  | [], acc => some acc
  | c :: rest, acc =>
    match digit_val c with
    | some d => parse_nat_digits rest (acc * 10 + d)
    | none => none

/-- Integer parse of a character list: optional leading minus sign then
decimal digits; `none` when empty or non-numeric. -/
def parse_int_chars : List Char → Option Int
  | [] => none
  | c :: rest =>
    if c = Char.ofNat 45 then
      match rest with
      | [] => none
      | _ :: _ => (parse_nat_digits rest 0).map (fun n => -(n : Int))
    else (parse_nat_digits (c :: rest) 0).map (fun n => (n : Int))

/-- Integer parse of a string. -/
def parse_int (s : String) : Option Int := parse_int_chars s.data

/-- `std::stoi`, modelled as decimal integer parsing of the attribute value
(optional sign, digits); throws (`notANumber`) when the value does not parse
as an integer. -/
def stoi (s : String) : Except XmlError Int :=
  match parse_int s with
  | some n => .ok n
  | none => .error .notANumber

/-- The attribute-scanning loop the C++ repeats in every getter: first
attribute with the given name, in attribute order. -/
def find_attr (attrs : List (String × String)) (attrName : String) : Option String :=
  match attrs with
  | [] => none
  | (a, v) :: rest => if a = attrName then some v else find_attr rest attrName

/-- First value for a key in an association list (`std::unordered_map::find`,
with document-insertion order kept explicit). -/
def map_find {α β : Type} [DecidableEq α] (k : α) : List (α × β) → Option β
  | [] => none
  | (a, b) :: rest => if a = k then some b else map_find k rest

/-- `std::unordered_map::insert`: inserts only when the key is not already
present (the first-inserted entry wins). -/
def mapInsert {α β : Type} [DecidableEq α] (m : List (α × β)) (k : α) (v : β) :
    List (α × β) :=
  match map_find k m with
  | some _ => m
  | none => m ++ [(k, v)]

/-- First-of-two option choice (used to state lookup invariants of the
insert loops). -/
def opt_or {α : Type} (a b : Option α) : Option α :=
  match a with
  | some v => some v
  | none => b

/-- `string_to_char_buffer`: copies the string and appends two NUL
terminators (`resize(size + 2)` zero-fills the tail). -/
def string_to_char_buffer (xml_content : String) : List Char :=
  xml_content.data ++ [Char.ofNat 0, Char.ofNat 0]

/-- The `buffer.empty()` guard of `load_external_xml`; the rapidxml parse that
follows is external to this embedding. -/
def load_external_xml_empty_check (buffer : List Char) : Except XmlError Unit :=
  if buffer = [] then .error .emptyInput else .ok ()

/-- `get_first_node`: checks the root tag is `Format` and returns the root's
child list (first child plus its sibling chain).  An empty document makes the
C++ dereference a null root pointer. -/
def get_first_node (document : XmlDoc) : Except XmlError (List XmlNode) :=
  match document with
  | [] => .error .nullRootDeref
  | root :: _ =>
    if root.name = "Format" then .ok root.children else .error .unexpectedRoot

/-- `get_id_attribute`: first attribute named `id`, `stoi`ed; throws naming
the node's tag when absent. -/
def get_id_attribute (node : XmlNode) : Except XmlError Int :=
  match find_attr node.attrs "id" with
  | some v => stoi v
  | none => .error (.missingAttribute node.name "id")

/-- `get_name_attribute`: first attribute named `Name`; throws naming the
node's tag when absent. -/
def get_name_attribute (node : XmlNode) : Except XmlError String :=
  match find_attr node.attrs "Name" with
  | some v => .ok v
  | none => .error (.missingAttribute node.name "Name")

/-- `get_verbosity_attribute`: first attribute named `verbosity`, `stoi`ed;
throws naming the node's tag when absent. -/
def get_verbosity_attribute (node : XmlNode) : Except XmlError Int :=
  match find_attr node.attrs "verbosity" with
  | some v => stoi v
  | none => .error (.missingAttribute node.name "verbosity")

/-- The sibling scan of `get_source_node`: first node tagged `Source` whose
`id` attribute equals the requested id; reading the id of any scanned
`Source` node can throw, aborting the scan. -/
def get_source_node_loop (source_id : Int) : List XmlNode → Except XmlError XmlNode
  | [] => .error (.sourceNotFound source_id)
  | node :: rest =>
    if node.name = "Source" then
      match get_id_attribute node with
      | .error e => .error e
      | .ok i =>
        if source_id = i then .ok node else get_source_node_loop source_id rest
    else get_source_node_loop source_id rest

/-- `get_source_node` over a whole document. -/
def get_source_node (source_id : Int) (document : XmlDoc) : Except XmlError XmlNode :=
  match get_first_node document with
  | .error e => .error e
  | .ok top => get_source_node_loop source_id top

/-- `get_file_path`: scans the source's children; on the first child tagged
`File` that carries a `Path` attribute, returns that attribute's value
(possibly empty); returns the empty string when no such child exists. -/
def get_file_path : List XmlNode → String
  | [] => ""
  | node :: rest =>
    if node.name = "File" then
      match find_attr node.attrs "Path" with
      | some p => p
      | none => get_file_path rest
    else get_file_path rest

/-- `fw_logs_xml_helper::get_source_parser_file_path`. -/
def get_source_parser_file_path (source_id : Int) (definitions_doc : XmlDoc) :
    Except XmlError String :=
  match get_source_node source_id definitions_doc with
  | .error e => .error e
  | .ok source_node =>
    let path := get_file_path source_node.children
    if path = "" then .error (.missingFilePath source_id)
    else .ok path

/-- The `Module` collection loop of `get_source_module_verbosity`: children
tagged `Module` contribute `insert(id, verbosity)`. -/
def mv_loop : List XmlNode → List (Int × Int) → Except XmlError (List (Int × Int))
  | [], acc => .ok acc
  | node :: rest, acc =>
    if node.name = "Module" then
      match get_id_attribute node with
      | .error e => .error e
      | .ok i =>
        match get_verbosity_attribute node with
        | .error e => .error e
        | .ok v => mv_loop rest (mapInsert acc i v)
    else mv_loop rest acc

/-- `fw_logs_xml_helper::get_source_module_verbosity`. -/
def get_source_module_verbosity (source_id : Int) (definitions_doc : XmlDoc) :
    Except XmlError (List (Int × Int)) :=
  match get_source_node source_id definitions_doc with
  | .error e => .error e
  | .ok source_node => mv_loop source_node.children []

/-- The attribute loop of `get_event_data`: `numberOfArguments` is `stoi`ed
into the accumulator (last occurrence wins), `format` occurrences are
appended. -/
def event_attr_loop : List (String × String) → Int → String →
    Except XmlError (Int × String)
  | [], n, f => .ok (n, f)
  | (a, v) :: rest, n, f =>
    if a = "numberOfArguments" then
      match stoi v with
      | .error e => .error e
      | .ok n2 => event_attr_loop rest n2 f
    else if a = "format" then event_attr_loop rest n (f ++ v)
    else event_attr_loop rest n f

/-- `get_event_data`: runs the attribute loop from `(-1, "")` and rejects a
final negative argument count or empty format with the
missing-event-attribute error. -/
def get_event_data (node : XmlNode) : Except XmlError (Int × String) :=
  match event_attr_loop node.attrs (-1) "" with
  | .error e => .error e
  | .ok (n, f) =>
    if n < 0 ∨ f = "" then .error .missingEventAttribute
    else .ok (n, f)

/-- The sibling loop of `get_events`: each node tagged `Event` contributes
`insert(id, (numberOfArguments, format))`. -/
def get_events_loop : List XmlNode → List (Int × (Int × String)) →
    Except XmlError (List (Int × (Int × String)))
  | [], acc => .ok acc
  | node :: rest, acc =>
    if node.name = "Event" then
      match get_id_attribute node with
      | .error e => .error e
      | .ok i =>
        match get_event_data node with
        | .error e => .error e
        | .ok d => get_events_loop rest (mapInsert acc i d)
    else get_events_loop rest acc

/-- `fw_logs_xml_helper::get_events`. -/
def get_events (parser_contents_doc : XmlDoc) :
    Except XmlError (List (Int × (Int × String))) :=
  match get_first_node parser_contents_doc with
  | .error e => .error e
  | .ok top => get_events_loop top []

/-- The sibling loop of `get_id_to_names`: each node with the requested tag
contributes `insert(id, Name)`. -/
def get_id_to_names_loop (tag : String) : List XmlNode → List (Int × String) →
    Except XmlError (List (Int × String))
  | [], acc => .ok acc
  | node :: rest, acc =>
    if node.name = tag then
      match get_id_attribute node with
      | .error e => .error e
      | .ok i =>
        match get_name_attribute node with
        | .error e => .error e
        | .ok nm => get_id_to_names_loop tag rest (mapInsert acc i nm)
    else get_id_to_names_loop tag rest acc

/-- `get_id_to_names`. -/
def get_id_to_names (parser_contents_doc : XmlDoc) (tag : String) :
    Except XmlError (List (Int × String)) :=
  match get_first_node parser_contents_doc with
  | .error e => .error e
  | .ok top => get_id_to_names_loop tag top []

/-- `fw_logs_xml_helper::get_files`. -/
def get_files (parser_contents_doc : XmlDoc) : Except XmlError (List (Int × String)) :=
  get_id_to_names parser_contents_doc "File"

/-- `fw_logs_xml_helper::get_modules`. -/
def get_modules (parser_contents_doc : XmlDoc) : Except XmlError (List (Int × String)) :=
  get_id_to_names parser_contents_doc "Module"

/-- `fw_logs_xml_helper::get_threads`. -/
def get_threads (parser_contents_doc : XmlDoc) : Except XmlError (List (Int × String)) :=
  get_id_to_names parser_contents_doc "Thread"

/-- The attribute loop inside `get_enum_values`: `Key` is `stoi`ed (last
occurrence wins), `Value` occurrences are appended. -/
def enum_value_attr_loop : List (String × String) → Int → String →
    Except XmlError (Int × String)
  | [], k, v => .ok (k, v)
  | (a, s) :: rest, k, v =>
    if a = "Key" then
      match stoi s with
      | .error e => .error e
      | .ok k2 => enum_value_attr_loop rest k2 v
    else if a = "Value" then enum_value_attr_loop rest k (v ++ s)
    else enum_value_attr_loop rest k v

/-- `get_enum_values`: children tagged `EnumValue` yield their `(Key, Value)`
pairs in document order; a final negative key or empty value is rejected with
the missing-enum-value-attribute error (naming the `EnumValue` tag). -/
def get_enum_values : List XmlNode → Except XmlError (List (Int × String))
  | [] => .ok []
  | node :: rest =>
    if node.name = "EnumValue" then
      match enum_value_attr_loop node.attrs (-1) "" with
      | .error e => .error e
      | .ok (k, v) =>
        if k < 0 ∨ v = "" then .error (.missingEnumValueAttribute node.name)
        else
          match get_enum_values rest with
          | .error e => .error e
          | .ok tail => .ok ((k, v) :: tail)
    else get_enum_values rest

/-- The per-attribute body of `get_enums`: for EVERY attribute of an enum
child the C++ builds a fresh `enum_name` (the attribute's value when the
attribute is named `Name`, the empty string otherwise), recomputes the
child's values and inserts. -/
def enums_attr_loop (enum_node : XmlNode) :
    List (String × String) → List (String × List (Int × String)) →
    Except XmlError (List (String × List (Int × String)))
  | [], acc => .ok acc
  | (a, s) :: rest, acc =>
    match get_enum_values enum_node.children with
    | .error e => .error e
    | .ok values =>
      enums_attr_loop enum_node rest
        (mapInsert acc (if a = "Name" then s else "") values)

/-- The loop over children of an `Enums` node. -/
def enums_children_loop : List XmlNode → List (String × List (Int × String)) →
    Except XmlError (List (String × List (Int × String)))
  | [], acc => .ok acc
  | enum_node :: rest, acc =>
    match enums_attr_loop enum_node enum_node.attrs acc with
    | .error e => .error e
    | .ok acc2 => enums_children_loop rest acc2

/-- The top-level loop of `get_enums`: every node tagged `Enums` is
processed. -/
def get_enums_loop : List XmlNode → List (String × List (Int × String)) →
    Except XmlError (List (String × List (Int × String)))
  | [], acc => .ok acc
  | node :: rest, acc =>
    if node.name = "Enums" then
      match enums_children_loop node.children acc with
      | .error e => .error e
      | .ok acc2 => get_enums_loop rest acc2
    else get_enums_loop rest acc

/-- `fw_logs_xml_helper::get_enums`. -/
def get_enums (parser_contents_doc : XmlDoc) :
    Except XmlError (List (String × List (Int × String))) :=
  match get_first_node parser_contents_doc with
  | .error e => .error e
  | .ok top => get_enums_loop top []

/-!
## The string formatter (spec-modelled)

`fw_string_formatter::generate_message` is declared in
`src/fw-logs/fw-string-formatter.h`; its implementation file is not part of
the sources here, so the parameter decoder and substitution are modelled from
the spec (sections 4.4 and 4.5).
-/

/-- Modelled from the spec: the interpretation kind of one decoded parameter
(spec section 3, `ParamInfo`): integer of a given signedness, floating point,
or an enum-table reference. -/
inductive param_kind : Type where
  | uint
  | sint
  | fp
  | enum_ref (name : String)
deriving DecidableEq

/-- Modelled from the spec: per-parameter decode descriptor, byte width plus
interpretation kind (`param_info` of `fw-log-data.h`, absent from the
sources). -/
structure param_info : Type where
  width : Nat
  kind : param_kind
deriving DecidableEq

/-- Formatter-side error taxonomy (spec section 7). -/
inductive fmt_error : Type where
  | truncated_blob (expected_total : Nat) (actual_len : Nat)
  | trailing_bytes
  | unknown_enum_value (name : String) (key : Int)
deriving DecidableEq

/-- Sum of the per-parameter byte widths a template implies. -/
def widths_total (infos : List param_info) : Nat :=
  (infos.map (fun i => i.width)).sum

/-- Little-endian value of a byte list. -/
def le_bytes_value : List Nat → Nat
  | [] => 0
  | b :: rest => b + 256 * le_bytes_value rest

/-- Modelled from the spec: the cursor loop of the Parameter Decoder (spec
section 4.4) — read `width` bytes per descriptor, fail `TruncatedBlob` on
overrun, fail `TrailingBytes` when bytes remain at the end. -/
def decode_params_go (expected_total actual_len : Nat) :
    List param_info → List Nat → Except fmt_error (List (param_info × Nat))
  | [], bytes =>
    if bytes.isEmpty then .ok []
    else .error .trailing_bytes
  | info :: infos, bytes =>
    if info.width ≤ bytes.length then
      (decode_params_go expected_total actual_len infos (bytes.drop info.width)).map
        (fun rest => (info, le_bytes_value (bytes.take info.width)) :: rest)
    else .error (.truncated_blob expected_total actual_len)

/-- Modelled from the spec: the Parameter Decoder entry point. -/
def decode_params (infos : List param_info) (blob : List Nat) :
    Except fmt_error (List (param_info × Nat)) :=
  decode_params_go (widths_total infos) blob.length infos blob

/-- First literal for a numeric key in an enum table (first-defined-wins,
spec section 3). -/
def enum_literal_for (values : List (Int × String)) (k : Int) : Option String :=
  map_find k values

/-- Two's-complement reading of a raw little-endian value of `w` bytes. -/
def as_signed (w : Nat) (v : Nat) : Int :=
  if v < 2 ^ (8 * w - 1) then (v : Int) else (v : Int) - 2 ^ (8 * w)

/-- Modelled from the spec: render one decoded parameter as text (spec
section 4.5 step 4); enum-typed parameters resolve through the enum tables
and fail with `UnknownEnumValue` when no pair matches. -/
def render_param (enums : List (String × List (Int × String)))
    (p : param_info × Nat) : Except fmt_error String :=
  match p.1.kind with
  | .uint => .ok (toString p.2)
  | .sint => .ok (toString (as_signed p.1.width p.2))
  | .fp => .ok (toString p.2)
  | .enum_ref nm =>
    match map_find nm enums with
    | some values =>
      match enum_literal_for values (Int.ofNat p.2) with
      | some lit => .ok lit
      | none => .error (.unknown_enum_value nm (Int.ofNat p.2))
    | none => .error (.unknown_enum_value nm (Int.ofNat p.2))

/-- Render every decoded parameter in order. -/
def render_params (enums : List (String × List (Int × String))) :
    List (param_info × Nat) → Except fmt_error (List String)
  | [] => .ok []
  | p :: rest =>
    match render_param enums p with
    | .error e => .error e
    | .ok s =>
      match render_params enums rest with
      | .error e => .error e
      | .ok tail => .ok (s :: tail)

/-- Modelled from the spec: left-to-right positional substitution with the
spec's suggested placeholder grammar (section 9), replacing the placeholder
of index `i` by the rendered value. -/
def subst_params : String → Nat → List String → String
  | s, _, [] => s
  | s, i, r :: rest =>
    subst_params (s.replace ("\x7b" ++ toString i ++ "\x7d") r) (i + 1) rest

/-- Modelled from the spec: `fw_string_formatter::generate_message` — decode
the parameter blob against the descriptor sequence, render each value
(consulting the enum tables), substitute into the format template. -/
def generate_message (enums : List (String × List (Int × String)))
    (source : String) (params_info : List param_info) (params_blob : List Nat) :
    Except fmt_error String :=
  match decode_params params_info params_blob with
  | .error e => .error e
  | .ok decoded =>
    match render_params enums decoded with
    | .error e => .error e
    | .ok rendered => .ok (subst_params source 0 rendered)

/-!
## Spec-side reference definitions

These follow the wording of the spec / claims, for comparison with the code
embeddings above.
-/

/-- First attribute of a node with the given name, parsed as an integer. -/
def attr_int (node : XmlNode) (attrName : String) : Option Int :=
  match find_attr node.attrs attrName with
  | some s => parse_int s
  | none => none

/-- Spec-side (claim wording): the `(module id, verbosity)` pairs of the
children tagged `Module`, in document order; `none` when some `Module` child
lacks a parsing `id` or `verbosity` attribute. -/
def module_pairs : List XmlNode → Option (List (Int × Int))
  | [] => some []
  | c :: rest =>
    if c.name = "Module" then
      match attr_int c "id", attr_int c "verbosity" with
      | some i, some v => (module_pairs rest).map (fun ps => (i, v) :: ps)
      | _, _ => none
    else module_pairs rest

/-- Spec-side (claim wording): the value of the first entry with a matching
id among Event nodes taken in document order — "first-defined-wins". -/
def first_event_lookup (k : Int) : List XmlNode → Option (Int × String)
  | [] => none
  | node :: rest =>
    if node.name = "Event" then
      match get_id_attribute node, get_event_data node with
      | .ok i, .ok d => if i = k then some d else first_event_lookup k rest
      | _, _ => none
    else first_event_lookup k rest

/-- Spec-side (claim wording): the name of the first node with the given tag
and a matching id, in document order — "first-defined-wins". -/
def first_name_lookup (tag : String) (k : Int) : List XmlNode → Option String
  | [] => none
  | node :: rest =>
    if node.name = tag then
      match get_id_attribute node, get_name_attribute node with
      | .ok i, .ok nm => if i = k then some nm else first_name_lookup tag k rest
      | _, _ => none
    else first_name_lookup tag k rest

/-- Spec-side (claim wording): the `Path` attribute value of the first child
tagged `File` that carries a `Path` attribute. -/
def first_file_path : List XmlNode → Option String
  | [] => none
  | node :: rest =>
    if node.name = "File" then
      match find_attr node.attrs "Path" with
      | some p => some p
      | none => first_file_path rest
    else first_file_path rest

/-- Spec-side (claim wording): the ordered `(Key, Value)` pairs of the
children tagged `EnumValue`, for canonically shaped children (exactly the
attributes `Key` then `Value`, with an integer key). -/
def enum_value_pairs : List XmlNode → Option (List (Int × String))
  | [] => some []
  | n :: rest =>
    if n.name = "EnumValue" then
      match n.attrs with
      | [(a1, ks), (a2, v)] =>
        if a1 = "Key" ∧ a2 = "Value" then
          match parse_int ks with
          | some k => (enum_value_pairs rest).map (fun ps => (k, v) :: ps)
          | none => none
        else none
      | _ => none
    else enum_value_pairs rest

/-- Spec-side (claim wording): one entry per enum child, keyed by the child's
`Name` attribute value and mapped to its `(Key, Value)` list — for children
carrying exactly the single attribute `Name`. -/
def enums_spec_table : List XmlNode → Option (List (String × List (Int × String)))
  | [] => some []
  | c :: rest =>
    match c.attrs, enum_value_pairs c.children with
    | [(a, nm)], some vals =>
      if a = "Name" then (enums_spec_table rest).map (fun ps => (nm, vals) :: ps)
      else none
    | _, _ => none

/-!
## Concrete test documents
-/

/-- Definitions document with two sources and their modules. -/
def wdoc_two_sources : XmlDoc :=
  [XmlNode.node "Format" []
    [XmlNode.node "Source" [("id", "1")]
      [XmlNode.node "Module" [("id", "0"), ("verbosity", "3")] [],
       XmlNode.node "Module" [("id", "1"), ("verbosity", "2")] []],
     XmlNode.node "Source" [("id", "2")]
      [XmlNode.node "Module" [("id", "5"), ("verbosity", "1")] []]]]

/-- Definitions document whose source 1 has a `Module` child missing its
`verbosity` attribute, followed by a well-formed `Module` child. -/
def wdoc_bad_module : XmlDoc :=
  [XmlNode.node "Format" []
    [XmlNode.node "Source" [("id", "1")]
      [XmlNode.node "Module" [("id", "0")] [],
       XmlNode.node "Module" [("id", "1"), ("verbosity", "2")] []]]]

/-- Definitions document whose first `Source` node has no `id` attribute,
while a later `Source` node carries the requested id 3. -/
def wdoc_idless_source : XmlDoc :=
  [XmlNode.node "Format" []
    [XmlNode.node "Source" [] [],
     XmlNode.node "Source" [("id", "3")]
      [XmlNode.node "File" [("Path", "parser.xml")] []]]]

/-- Definitions document whose source 1 carries a `File` child with an empty
`Path` value before a `File` child with a non-empty one. -/
def wdoc_empty_then_good_path : XmlDoc :=
  [XmlNode.node "Format" []
    [XmlNode.node "Source" [("id", "1")]
      [XmlNode.node "File" [("Path", "")] [],
       XmlNode.node "File" [("Path", "good.xml")] []]]]

/-- Definitions document whose source 1 carries a single well-formed `File`
child. -/
def wdoc_good_path : XmlDoc :=
  [XmlNode.node "Format" []
    [XmlNode.node "Source" [("id", "1")]
      [XmlNode.node "File" [("Path", "parser.xml")] []]]]

/-- Parser-contents document with duplicate `Event` ids and duplicate `File`
ids (the duplicates carry different data). -/
def wdoc_dup_ids : XmlDoc :=
  [XmlNode.node "Format" []
    [XmlNode.node "Event" [("id", "1"), ("numberOfArguments", "1"), ("format", "a")] [],
     XmlNode.node "Event" [("id", "1"), ("numberOfArguments", "2"), ("format", "b")] [],
     XmlNode.node "File" [("id", "1"), ("Name", "x")] [],
     XmlNode.node "File" [("id", "1"), ("Name", "y")] []]]

/-- Parser-contents document whose enum group node carries an extra attribute
besides `Name`. -/
def wdoc_enum_extra_attr : XmlDoc :=
  [XmlNode.node "Format" []
    [XmlNode.node "Enums" []
      [XmlNode.node "MyEnumGroup" [("Extra", "x"), ("Name", "MyEnum")]
        [XmlNode.node "EnumValue" [("Key", "1"), ("Value", "ON")] []]]]]

/-- Parser-contents document with two canonically shaped enum groups. -/
def wdoc_enums_canonical : XmlDoc :=
  [XmlNode.node "Format" []
    [XmlNode.node "Enums" []
      [XmlNode.node "EnumName" [("Name", "PowerEnum")]
        [XmlNode.node "EnumValue" [("Key", "1"), ("Value", "ON")] [],
         XmlNode.node "EnumValue" [("Key", "0"), ("Value", "OFF")] []],
       XmlNode.node "EnumName" [("Name", "ModeEnum")]
        [XmlNode.node "EnumValue" [("Key", "2"), ("Value", "AUTO")] []]]]]

/-!
## Helper lemmas
-/

theorem map_find_append_none {α β : Type} [DecidableEq α] (k : α)
    (l1 l2 : List (α × β)) (h : map_find k l1 = none) :
    map_find k (l1 ++ l2) = map_find k l2 := by
  induction l1 with
  | nil => rw [List.nil_append]
  | cons p rest ih =>
    obtain ⟨a, b⟩ := p
    rw [map_find] at h
    by_cases ha : a = k
    · rw [if_pos ha] at h
      exact absurd h (by simp)
    · rw [if_neg ha] at h
      rw [List.cons_append, map_find, if_neg ha]
      exact ih h

theorem map_find_singleton {α β : Type} [DecidableEq α] (k a : α) (b : β) :
    map_find k [(a, b)] = if a = k then some b else none := by
  rfl

theorem mapInsert_absent {α β : Type} [DecidableEq α] {m : List (α × β)} {k : α}
    (v : β) (h : map_find k m = none) : mapInsert m k v = m ++ [(k, v)] := by
  unfold mapInsert
  rw [h]

theorem mapInsert_present {α β : Type} [DecidableEq α] {m : List (α × β)} {k : α}
    (v : β) (h : (map_find k m).isSome) : mapInsert m k v = m := by
  unfold mapInsert
  cases hm : map_find k m with
  | none => rw [hm] at h; exact absurd h (by simp)
  | some w => rfl

theorem attr_int_id (node : XmlNode) (i : Int) (h : attr_int node "id" = some i) :
    get_id_attribute node = .ok i := by
  unfold attr_int at h
  unfold get_id_attribute
  cases hf : find_attr node.attrs "id" with
  | none =>
    rw [hf] at h
    exact absurd h (by simp)
  | some s =>
    rw [hf] at h
    have h2 : parse_int s = some i := h
    show stoi s = .ok i
    unfold stoi
    rw [h2]

theorem attr_int_verbosity (node : XmlNode) (i : Int)
    (h : attr_int node "verbosity" = some i) :
    get_verbosity_attribute node = .ok i := by
  unfold attr_int at h
  unfold get_verbosity_attribute
  cases hf : find_attr node.attrs "verbosity" with
  | none =>
    rw [hf] at h
    exact absurd h (by simp)
  | some s =>
    rw [hf] at h
    have h2 : parse_int s = some i := h
    show stoi s = .ok i
    unfold stoi
    rw [h2]

theorem mv_loop_spec (children : List XmlNode) :
    ∀ (acc : List (Int × Int)) (pairs : List (Int × Int)),
    module_pairs children = some pairs →
    (pairs.map Prod.fst).Nodup →
    (∀ p ∈ pairs, map_find p.1 acc = none) →
    mv_loop children acc = .ok (acc ++ pairs) := by
  induction children with
  | nil =>
    intro acc pairs h _ _
    rw [module_pairs] at h
    cases h
    rw [mv_loop, List.append_nil]
  | cons c rest ih =>
    intro acc pairs h hnd hdisj
    rw [module_pairs] at h
    rw [mv_loop]
    by_cases hc : c.name = "Module"
    · rw [if_pos hc] at h ⊢
      cases hi : attr_int c "id" with
      | none => rw [hi] at h; exact absurd h (by simp)
      | some i =>
        cases hv : attr_int c "verbosity" with
        | none => rw [hi, hv] at h; exact absurd h (by simp)
        | some v =>
          rw [hi, hv] at h
          cases hrest : module_pairs rest with
          | none => rw [hrest] at h; exact absurd h (by simp)
          | some ps =>
            rw [hrest] at h
            simp only [Option.map_some] at h
            cases h
            rw [attr_int_id c i hi, attr_int_verbosity c v hv]
            show mv_loop rest (mapInsert acc i v) = .ok (acc ++ (i, v) :: ps)
            have hacc : map_find i acc = none :=
              hdisj (i, v) (List.mem_cons_self _ _)
            rw [mapInsert_absent v hacc]
            simp only [List.map_cons, List.nodup_cons] at hnd
            have hdisj2 : ∀ p ∈ ps, map_find p.1 (acc ++ [(i, v)]) = none := by
              intro p hp
              rw [map_find_append_none _ _ _ (hdisj p (List.mem_cons_of_mem _ hp)),
                map_find_singleton, if_neg]
              intro hip
              refine hnd.1 ?_
              rw [hip]
              exact List.mem_map_of_mem Prod.fst hp
            rw [ih (acc ++ [(i, v)]) ps hrest hnd.2 hdisj2, List.append_assoc,
              List.singleton_append]
    · rw [if_neg hc] at h ⊢
      exact ih acc pairs h hnd hdisj

theorem get_source_node_loop_reaches (sid : Int) (post : List XmlNode)
    (src : XmlNode) (hsrc : src.name = "Source")
    (hid : get_id_attribute src = .ok sid) :
    ∀ pre : List XmlNode,
    (∀ n ∈ pre, n.name = "Source" → ∃ j, get_id_attribute n = .ok j ∧ j ≠ sid) →
    get_source_node_loop sid (pre ++ src :: post) = .ok src := by
  intro pre
  induction pre with
  | nil =>
    intro _
    rw [List.nil_append, get_source_node_loop, if_pos hsrc, hid]
    show (if sid = sid then Except.ok src else get_source_node_loop sid post) =
      Except.ok src
    rw [if_pos rfl]
  | cons n rest ih =>
    intro hpre
    rw [List.cons_append, get_source_node_loop]
    by_cases hn : n.name = "Source"
    · rw [if_pos hn]
      obtain ⟨j, hj, hjne⟩ := hpre n (List.mem_cons_self _ _) hn
      rw [hj]
      show (if sid = j then Except.ok n
          else get_source_node_loop sid (rest ++ src :: post)) = Except.ok src
      rw [if_neg (Ne.symm hjne)]
      exact ih fun m hm => hpre m (List.mem_cons_of_mem _ hm)
    · rw [if_neg hn]
      exact ih fun m hm => hpre m (List.mem_cons_of_mem _ hm)

/-!
## Claims
-/

/-- C6 (code bug): `string_to_char_buffer` always returns a buffer of length
`n + 2` (two appended NUL terminators), so the `buffer.empty()` guard of
`load_external_xml` never fires: no input string — in particular not the
empty one — can produce the "Empty XML content" (`EmptyInput`) error the
spec promises. -/
theorem empty_input_check_unreachable :
    ∀ s : String,
      (string_to_char_buffer s).length = s.length + 2 ∧
      load_external_xml_empty_check (string_to_char_buffer s) = .ok () := by
  intro s
  constructor
  · unfold string_to_char_buffer
    rw [List.length_append]
    rfl
  · unfold load_external_xml_empty_check string_to_char_buffer
    rw [if_neg]
    intro h
    exact absurd (congrArg List.length h) (by simp)

/-- C1: for a well-formed definitions document (every `Source` sibling
scanned before the matching one has a readable, different id; the matching
`Source` node's `Module` children all carry parsing `id` and `verbosity`
attributes, with distinct module ids), `get_source_module_verbosity` returns
exactly one `(module id, verbosity)` entry per `Module` child of that
`Source` node — the list `module_pairs` spelled from the claim — and no
entry derived from any other `Source` node. -/
theorem get_source_module_verbosity_exact (doc : XmlDoc) (sid : Int)
    (top pre post : List XmlNode) (src : XmlNode) (pairs : List (Int × Int))
    (htop : get_first_node doc = .ok top)
    (hsplit : top = pre ++ src :: post)
    (hpre : ∀ n ∈ pre, n.name = "Source" → ∃ j, get_id_attribute n = .ok j ∧ j ≠ sid)
    (hsrc : src.name = "Source")
    (hid : get_id_attribute src = .ok sid)
    (hmp : module_pairs src.children = some pairs)
    (hnd : (pairs.map Prod.fst).Nodup) :
    get_source_module_verbosity sid doc = .ok pairs := by
  unfold get_source_module_verbosity get_source_node
  rw [htop, hsplit]
  show (match get_source_node_loop sid (pre ++ src :: post) with
    | Except.error e => Except.error e
    | Except.ok source_node => mv_loop source_node.children []) = Except.ok pairs
  rw [get_source_node_loop_reaches sid post src hsrc hid pre hpre]
  show mv_loop src.children [] = Except.ok pairs
  have hdisj : ∀ p ∈ pairs, map_find p.1 ([] : List (Int × Int)) = none := by
    intro p _
    rfl
  rw [mv_loop_spec src.children [] pairs hmp hnd hdisj, List.nil_append]

/-- C1 witness: in a two-source document, requesting source 2 yields exactly
its single module entry and nothing from source 1. -/
theorem get_source_module_verbosity_exact_witness :
    get_source_module_verbosity 2 wdoc_two_sources = .ok [(5, 1)] := by
  refine get_source_module_verbosity_exact wdoc_two_sources 2 _
    [XmlNode.node "Source" [("id", "1")]
      [XmlNode.node "Module" [("id", "0"), ("verbosity", "3")] [],
       XmlNode.node "Module" [("id", "1"), ("verbosity", "2")] []]] []
    (XmlNode.node "Source" [("id", "2")]
      [XmlNode.node "Module" [("id", "5"), ("verbosity", "1")] []])
    [(5, 1)] rfl rfl ?_ rfl (by decide) (by decide) (by simp)
  intro n hn _
  have hn2 : n = XmlNode.node "Source" [("id", "1")]
      [XmlNode.node "Module" [("id", "0"), ("verbosity", "3")] [],
       XmlNode.node "Module" [("id", "1"), ("verbosity", "2")] []] := by
    cases hn with
    | head => rfl
    | tail _ h => cases h
  rw [hn2]
  exact ⟨1, by decide, by decide⟩

theorem mv_loop_append (l1 l2 : List XmlNode) (acc : List (Int × Int)) :
    mv_loop (l1 ++ l2) acc =
      match mv_loop l1 acc with
      | .error e => .error e
      | .ok acc2 => mv_loop l2 acc2 := by
  induction l1 generalizing acc with
  | nil =>
    rw [List.nil_append]
    rfl
  | cons c rest ih =>
    rw [List.cons_append, mv_loop, mv_loop]
    by_cases hc : c.name = "Module"
    · rw [if_pos hc, if_pos hc]
      cases get_id_attribute c with
      | error e => rfl
      | ok i =>
        cases get_verbosity_attribute c with
        | error e => rfl
        | ok v => exact ih (mapInsert acc i v)
    · rw [if_neg hc, if_neg hc]
      exact ih acc

theorem get_source_node_loop_aborts (sid : Int) (post : List XmlNode)
    (bad : XmlNode) (hbad : bad.name = "Source")
    (hnoid : find_attr bad.attrs "id" = none) :
    ∀ pre : List XmlNode,
    (∀ n ∈ pre, n.name = "Source" → ∃ j, get_id_attribute n = .ok j ∧ j ≠ sid) →
    get_source_node_loop sid (pre ++ bad :: post) =
      .error (.missingAttribute "Source" "id") := by
  intro pre
  induction pre with
  | nil =>
    intro _
    rw [List.nil_append, get_source_node_loop, if_pos hbad]
    have hidbad : get_id_attribute bad = .error (.missingAttribute bad.name "id") := by
      unfold get_id_attribute
      rw [hnoid]
    rw [hidbad, hbad]
  | cons n rest ih =>
    intro hpre
    rw [List.cons_append, get_source_node_loop]
    by_cases hn : n.name = "Source"
    · rw [if_pos hn]
      obtain ⟨j, hj, hjne⟩ := hpre n (List.mem_cons_self _ _) hn
      rw [hj]
      show (if sid = j then Except.ok n
          else get_source_node_loop sid (rest ++ bad :: post)) =
        Except.error (.missingAttribute "Source" "id")
      rw [if_neg (Ne.symm hjne)]
      exact ih fun m hm => hpre m (List.mem_cons_of_mem _ hm)
    · rw [if_neg hn]
      exact ih fun m hm => hpre m (List.mem_cons_of_mem _ hm)

theorem get_source_node_loop_not_found (sid : Int) :
    ∀ l : List XmlNode,
    (∀ n ∈ l, n.name = "Source" → ∃ j, get_id_attribute n = .ok j ∧ j ≠ sid) →
    get_source_node_loop sid l = .error (.sourceNotFound sid) := by
  intro l
  induction l with
  | nil =>
    intro _
    rfl
  | cons n rest ih =>
    intro hall
    rw [get_source_node_loop]
    by_cases hn : n.name = "Source"
    · rw [if_pos hn]
      obtain ⟨j, hj, hjne⟩ := hall n (List.mem_cons_self _ _) hn
      rw [hj]
      show (if sid = j then Except.ok n else get_source_node_loop sid rest) =
        Except.error (.sourceNotFound sid)
      rw [if_neg (Ne.symm hjne)]
      exact ih fun m hm => hall m (List.mem_cons_of_mem _ hm)
    · rw [if_neg hn]
      exact ih fun m hm => hall m (List.mem_cons_of_mem _ hm)

/-- C5: when the located `Source` node's children contain, after a prefix
whose module collection succeeds, a child tagged `Module` lacking its `id`
(respectively `verbosity`) attribute, `get_source_module_verbosity` fails
with the error naming the `Module` tag and the missing attribute, returning
no map at all — even though later children (`cpost`) may hold well-formed
modules. -/
theorem get_source_module_verbosity_fail_fast (doc : XmlDoc) (sid : Int)
    (src : XmlNode) (cpre cpost : List XmlNode) (bad : XmlNode)
    (acc : List (Int × Int))
    (hsrc : get_source_node sid doc = .ok src)
    (hsplit : src.children = cpre ++ bad :: cpost)
    (hpreok : mv_loop cpre [] = .ok acc)
    (hbad : bad.name = "Module") :
    (find_attr bad.attrs "id" = none →
      get_source_module_verbosity sid doc =
        .error (.missingAttribute "Module" "id")) ∧
    (∀ i, get_id_attribute bad = .ok i → find_attr bad.attrs "verbosity" = none →
      get_source_module_verbosity sid doc =
        .error (.missingAttribute "Module" "verbosity")) := by
  have hmain : ∀ e : XmlError, mv_loop (bad :: cpost) acc = .error e →
      get_source_module_verbosity sid doc = .error e := by
    intro e he
    unfold get_source_module_verbosity
    rw [hsrc]
    show mv_loop src.children [] = .error e
    rw [hsplit, mv_loop_append, hpreok]
    exact he
  constructor
  · intro hfind
    refine hmain _ ?_
    rw [mv_loop, if_pos hbad]
    have hidbad : get_id_attribute bad = .error (.missingAttribute bad.name "id") := by
      unfold get_id_attribute
      rw [hfind]
    rw [hidbad, hbad]
  · intro i hi hfind
    refine hmain _ ?_
    rw [mv_loop, if_pos hbad, hi]
    have hvbad : get_verbosity_attribute bad =
        .error (.missingAttribute bad.name "verbosity") := by
      unfold get_verbosity_attribute
      rw [hfind]
    show (match get_verbosity_attribute bad with
      | Except.error e => Except.error e
      | Except.ok v => mv_loop cpost (mapInsert acc i v)) =
      Except.error (.missingAttribute "Module" "verbosity")
    rw [hvbad, hbad]

/-- C5 witness: in `wdoc_bad_module` the first `Module` child of source 1
lacks `verbosity`; the whole call fails with the error naming `Module` and
`verbosity`, although the second `Module` child is well-formed. -/
theorem get_source_module_verbosity_fail_fast_witness :
    get_source_module_verbosity 1 wdoc_bad_module =
      .error (.missingAttribute "Module" "verbosity") :=
  (get_source_module_verbosity_fail_fast wdoc_bad_module 1
    (XmlNode.node "Source" [("id", "1")]
      [XmlNode.node "Module" [("id", "0")] [],
       XmlNode.node "Module" [("id", "1"), ("verbosity", "2")] []])
    [] [XmlNode.node "Module" [("id", "1"), ("verbosity", "2")] []]
    (XmlNode.node "Module" [("id", "0")] []) []
    rfl rfl rfl rfl).2 0 (by decide) rfl

/-- C9: a `Source` node with no `id` attribute aborts the source scan:
both `get_source_parser_file_path` and `get_source_module_verbosity` fail
with the missing-`id` error naming the `Source` tag, even when a later
`Source` node (in `post`) carries the requested id. -/
theorem idless_source_aborts (doc : XmlDoc) (sid : Int)
    (top pre post : List XmlNode) (bad : XmlNode)
    (htop : get_first_node doc = .ok top)
    (hsplit : top = pre ++ bad :: post)
    (hpre : ∀ n ∈ pre, n.name = "Source" → ∃ j, get_id_attribute n = .ok j ∧ j ≠ sid)
    (hbad : bad.name = "Source")
    (hnoid : find_attr bad.attrs "id" = none) :
    get_source_parser_file_path sid doc =
      .error (.missingAttribute "Source" "id") ∧
    get_source_module_verbosity sid doc =
      .error (.missingAttribute "Source" "id") := by
  have hnode : get_source_node sid doc = .error (.missingAttribute "Source" "id") := by
    unfold get_source_node
    rw [htop, hsplit]
    show get_source_node_loop sid (pre ++ bad :: post) =
      Except.error (.missingAttribute "Source" "id")
    exact get_source_node_loop_aborts sid post bad hbad hnoid pre hpre
  constructor
  · unfold get_source_parser_file_path
    rw [hnode]
  · unfold get_source_module_verbosity
    rw [hnode]

/-- C9 witness: in `wdoc_idless_source` the first `Source` node has no id
and the second carries the requested id 3; both entry points abort with the
missing-`id` error. -/
theorem idless_source_aborts_witness :
    get_source_parser_file_path 3 wdoc_idless_source =
      .error (.missingAttribute "Source" "id") ∧
    get_source_module_verbosity 3 wdoc_idless_source =
      .error (.missingAttribute "Source" "id") :=
  idless_source_aborts wdoc_idless_source 3 _ []
    [XmlNode.node "Source" [("id", "3")]
      [XmlNode.node "File" [("Path", "parser.xml")] []]]
    (XmlNode.node "Source" [] []) rfl rfl
    (fun n hn => by cases hn) rfl rfl

theorem get_file_path_eq_first (l : List XmlNode) :
    get_file_path l = (first_file_path l).getD "" := by
  induction l with
  | nil => rfl
  | cons n rest ih =>
    rw [get_file_path, first_file_path]
    by_cases hn : n.name = "File"
    · rw [if_pos hn, if_pos hn]
      cases find_attr n.attrs "Path" with
      | none => exact ih
      | some p => rfl
    · rw [if_neg hn, if_neg hn]
      exact ih

/-- C7 (amended): `get_source_parser_file_path` returns the `Path` value of
the first `File` child carrying a `Path` attribute (`first_file_path`); it
fails with the missing-file error exactly when that value is absent or
empty — not only when the source has no `File` child with a non-empty
`Path` — and fails with the not-found error when no `Source` node matches
the requested id. -/
theorem get_source_parser_file_path_amended :
    (∀ l : List XmlNode, get_file_path l = (first_file_path l).getD "") ∧
    (∀ (doc : XmlDoc) (sid : Int) (src : XmlNode),
      get_source_node sid doc = .ok src →
      ((first_file_path src.children).getD "" = "" →
        get_source_parser_file_path sid doc = .error (.missingFilePath sid)) ∧
      (∀ p, first_file_path src.children = some p → p ≠ "" →
        get_source_parser_file_path sid doc = .ok p)) ∧
    (∀ (doc : XmlDoc) (sid : Int) (top : List XmlNode),
      get_first_node doc = .ok top →
      (∀ n ∈ top, n.name = "Source" → ∃ j, get_id_attribute n = .ok j ∧ j ≠ sid) →
      get_source_parser_file_path sid doc = .error (.sourceNotFound sid)) := by
  refine ⟨get_file_path_eq_first, ?_, ?_⟩
  · intro doc sid src hsrc
    constructor
    · intro hempty
      unfold get_source_parser_file_path
      rw [hsrc]
      show (if get_file_path src.children = ""
          then Except.error (XmlError.missingFilePath sid)
          else Except.ok (get_file_path src.children)) =
        Except.error (XmlError.missingFilePath sid)
      rw [get_file_path_eq_first, hempty, if_pos rfl]
    · intro p hp hpne
      unfold get_source_parser_file_path
      rw [hsrc]
      show (if get_file_path src.children = ""
          then Except.error (XmlError.missingFilePath sid)
          else Except.ok (get_file_path src.children)) = Except.ok p
      rw [get_file_path_eq_first, hp, Option.getD_some, if_neg hpne]
  · intro doc sid top htop hnone
    unfold get_source_parser_file_path get_source_node
    rw [htop]
    show (match get_source_node_loop sid top with
      | Except.error e => Except.error e
      | Except.ok source_node =>
        if get_file_path source_node.children = ""
        then Except.error (XmlError.missingFilePath sid)
        else Except.ok (get_file_path source_node.children)) =
      Except.error (XmlError.sourceNotFound sid)
    rw [get_source_node_loop_not_found sid top hnone]

/-- C7 counterexample: in `wdoc_empty_then_good_path` source 1 does have a
`File` child whose `Path` is the non-empty "good.xml", yet the lookup fails
with the missing-file error, because the first `File` child carrying a
`Path` attribute has the empty value. -/
theorem get_source_parser_file_path_claim_false :
    get_source_parser_file_path 1 wdoc_empty_then_good_path =
      .error (.missingFilePath 1) ∧
    ((XmlNode.node "Source" [("id", "1")]
      [XmlNode.node "File" [("Path", "")] [],
       XmlNode.node "File" [("Path", "good.xml")] []]).children.any
      (fun n => n.name == "File" &&
        ((find_attr n.attrs "Path").getD "" != ""))) = true := by
  constructor
  · decide
  · decide

/-- C7 witness: on a well-formed source the path of its `File` child is
returned. -/
theorem get_source_parser_file_path_amended_witness :
    get_source_parser_file_path 1 wdoc_good_path = .ok "parser.xml" :=
  ((get_source_parser_file_path_amended.2.1 wdoc_good_path 1
    (XmlNode.node "Source" [("id", "1")]
      [XmlNode.node "File" [("Path", "parser.xml")] []])
    rfl).2) "parser.xml" rfl (by decide)

theorem opt_or_none {α : Type} (a : Option α) : opt_or a none = a := by
  cases a <;> rfl

theorem map_find_append_some {α β : Type} [DecidableEq α] (k : α)
    (l1 l2 : List (α × β)) (v : β) (h : map_find k l1 = some v) :
    map_find k (l1 ++ l2) = some v := by
  induction l1 with
  | nil => exact absurd h (by simp [map_find])
  | cons p rest ih =>
    obtain ⟨a, b⟩ := p
    rw [map_find] at h
    rw [List.cons_append, map_find]
    by_cases ha : a = k
    · rw [if_pos ha] at h ⊢
      exact h
    · rw [if_neg ha] at h ⊢
      exact ih h

theorem map_find_mapInsert_ne {α β : Type} [DecidableEq α] {m : List (α × β)}
    {i k : α} (d : β) (hik : i ≠ k) :
    map_find k (mapInsert m i d) = map_find k m := by
  unfold mapInsert
  cases map_find i m with
  | some w => rfl
  | none =>
    cases hk : map_find k m with
    | some v => rw [map_find_append_some k m _ v hk]
    | none => rw [map_find_append_none k m _ hk, map_find_singleton, if_neg hik]

theorem get_events_loop_lookup (l : List XmlNode) :
    ∀ (acc m : List (Int × (Int × String))) (k : Int),
    get_events_loop l acc = .ok m →
    map_find k m = opt_or (map_find k acc) (first_event_lookup k l) := by
  induction l with
  | nil =>
    intro acc m k h
    rw [get_events_loop] at h
    cases h
    rw [first_event_lookup, opt_or_none]
  | cons node rest ih =>
    intro acc m k h
    rw [get_events_loop] at h
    rw [first_event_lookup]
    by_cases hname : node.name = "Event"
    · rw [if_pos hname] at h ⊢
      cases hgi : get_id_attribute node with
      | error e => rw [hgi] at h; exact absurd h (by simp)
      | ok i =>
        rw [hgi] at h
        cases hgd : get_event_data node with
        | error e => rw [hgd] at h; exact absurd h (by simp)
        | ok d =>
          rw [hgd] at h
          have h2 : get_events_loop rest (mapInsert acc i d) = .ok m := h
          rw [ih (mapInsert acc i d) m k h2]
          show opt_or (map_find k (mapInsert acc i d)) (first_event_lookup k rest) =
            opt_or (map_find k acc) (if i = k then some d else first_event_lookup k rest)
          by_cases hik : i = k
          · subst hik
            rw [if_pos rfl]
            cases hacc : map_find i acc with
            | some v =>
              rw [mapInsert_present d (by rw [hacc]; rfl), hacc]
              rfl
            | none =>
              rw [mapInsert_absent d hacc, map_find_append_none _ _ _ hacc,
                map_find_singleton, if_pos rfl]
              rfl
          · rw [if_neg hik, map_find_mapInsert_ne d hik]
    · rw [if_neg hname] at h ⊢
      exact ih acc m k h

theorem get_id_to_names_loop_lookup (tag : String) (l : List XmlNode) :
    ∀ (acc m : List (Int × String)) (k : Int),
    get_id_to_names_loop tag l acc = .ok m →
    map_find k m = opt_or (map_find k acc) (first_name_lookup tag k l) := by
  induction l with
  | nil =>
    intro acc m k h
    rw [get_id_to_names_loop] at h
    cases h
    rw [first_name_lookup, opt_or_none]
  | cons node rest ih =>
    intro acc m k h
    rw [get_id_to_names_loop] at h
    rw [first_name_lookup]
    by_cases hname : node.name = tag
    · rw [if_pos hname] at h ⊢
      cases hgi : get_id_attribute node with
      | error e => rw [hgi] at h; exact absurd h (by simp)
      | ok i =>
        rw [hgi] at h
        cases hgd : get_name_attribute node with
        | error e => rw [hgd] at h; exact absurd h (by simp)
        | ok nm =>
          rw [hgd] at h
          have h2 : get_id_to_names_loop tag rest (mapInsert acc i nm) = .ok m := h
          rw [ih (mapInsert acc i nm) m k h2]
          show opt_or (map_find k (mapInsert acc i nm)) (first_name_lookup tag k rest) =
            opt_or (map_find k acc) (if i = k then some nm else first_name_lookup tag k rest)
          by_cases hik : i = k
          · subst hik
            rw [if_pos rfl]
            cases hacc : map_find i acc with
            | some v =>
              rw [mapInsert_present nm (by rw [hacc]; rfl), hacc]
              rfl
            | none =>
              rw [mapInsert_absent nm hacc, map_find_append_none _ _ _ hacc,
                map_find_singleton, if_pos rfl]
              rfl
          · rw [if_neg hik, map_find_mapInsert_ne nm hik]
    · rw [if_neg hname] at h ⊢
      exact ih acc m k h

theorem get_events_loop_append (l1 l2 : List XmlNode)
    (acc : List (Int × (Int × String))) :
    get_events_loop (l1 ++ l2) acc =
      match get_events_loop l1 acc with
      | .error e => .error e
      | .ok acc2 => get_events_loop l2 acc2 := by
  induction l1 generalizing acc with
  | nil =>
    rw [List.nil_append]
    rfl
  | cons c rest ih =>
    rw [List.cons_append, get_events_loop, get_events_loop]
    by_cases hc : c.name = "Event"
    · rw [if_pos hc, if_pos hc]
      cases get_id_attribute c with
      | error e => rfl
      | ok i =>
        cases get_event_data c with
        | error e => rfl
        | ok d => exact ih (mapInsert acc i d)
    · rw [if_neg hc, if_neg hc]
      exact ih acc

theorem get_id_to_names_loop_append (tag : String) (l1 l2 : List XmlNode)
    (acc : List (Int × String)) :
    get_id_to_names_loop tag (l1 ++ l2) acc =
      match get_id_to_names_loop tag l1 acc with
      | .error e => .error e
      | .ok acc2 => get_id_to_names_loop tag l2 acc2 := by
  induction l1 generalizing acc with
  | nil =>
    rw [List.nil_append]
    rfl
  | cons c rest ih =>
    rw [List.cons_append, get_id_to_names_loop, get_id_to_names_loop]
    by_cases hc : c.name = tag
    · rw [if_pos hc, if_pos hc]
      cases get_id_attribute c with
      | error e => rfl
      | ok i =>
        cases get_name_attribute c with
        | error e => rfl
        | ok nm => exact ih (mapInsert acc i nm)
    · rw [if_neg hc, if_neg hc]
      exact ih acc

/-- C3: every id-keyed table (`get_events`, `get_files`, `get_modules`,
`get_threads`) implements first-defined-wins: whenever the extraction
succeeds, looking a key up in the returned table yields the data of the
FIRST node of that tag with that id in document order (`first_event_lookup`
/ `first_name_lookup` spelled from the claim), so a later duplicate is
dropped. -/
theorem tables_first_defined_wins :
    (∀ (doc : XmlDoc) (top : List XmlNode) (m : List (Int × (Int × String))) (k : Int),
      get_first_node doc = .ok top → get_events doc = .ok m →
      map_find k m = first_event_lookup k top) ∧
    (∀ (doc : XmlDoc) (top : List XmlNode) (tag : String) (m : List (Int × String)) (k : Int),
      get_first_node doc = .ok top → get_id_to_names doc tag = .ok m →
      map_find k m = first_name_lookup tag k top) ∧
    (∀ (doc : XmlDoc) (top : List XmlNode) (m : List (Int × String)) (k : Int),
      get_first_node doc = .ok top → get_files doc = .ok m →
      map_find k m = first_name_lookup "File" k top) ∧
    (∀ (doc : XmlDoc) (top : List XmlNode) (m : List (Int × String)) (k : Int),
      get_first_node doc = .ok top → get_modules doc = .ok m →
      map_find k m = first_name_lookup "Module" k top) ∧
    (∀ (doc : XmlDoc) (top : List XmlNode) (m : List (Int × String)) (k : Int),
      get_first_node doc = .ok top → get_threads doc = .ok m →
      map_find k m = first_name_lookup "Thread" k top) := by
  have hev : ∀ (doc : XmlDoc) (top : List XmlNode) (m : List (Int × (Int × String))) (k : Int),
      get_first_node doc = .ok top → get_events doc = .ok m →
      map_find k m = first_event_lookup k top := by
    intro doc top m k htop h
    unfold get_events at h
    rw [htop] at h
    have h2 : get_events_loop top [] = .ok m := h
    rw [get_events_loop_lookup top [] m k h2]
    rfl
  have hnm : ∀ (doc : XmlDoc) (top : List XmlNode) (tag : String) (m : List (Int × String)) (k : Int),
      get_first_node doc = .ok top → get_id_to_names doc tag = .ok m →
      map_find k m = first_name_lookup tag k top := by
    intro doc top tag m k htop h
    unfold get_id_to_names at h
    rw [htop] at h
    have h2 : get_id_to_names_loop tag top [] = .ok m := h
    rw [get_id_to_names_loop_lookup tag top [] m k h2]
    rfl
  exact ⟨hev, hnm,
    fun doc top m k h1 h2 => hnm doc top "File" m k h1 h2,
    fun doc top m k h1 h2 => hnm doc top "Module" m k h1 h2,
    fun doc top m k h1 h2 => hnm doc top "Thread" m k h1 h2⟩

/-- C3 witness: with two `Event` nodes of id 1 in document order, the table
keeps the first one's data and lookup agrees with the first-match scan. -/
theorem tables_first_defined_wins_witness :
    map_find 1 [((1 : Int), ((1 : Int), "a"))] =
      first_event_lookup 1
        [XmlNode.node "Event" [("id", "1"), ("numberOfArguments", "1"), ("format", "a")] [],
         XmlNode.node "Event" [("id", "1"), ("numberOfArguments", "2"), ("format", "b")] [],
         XmlNode.node "File" [("id", "1"), ("Name", "x")] [],
         XmlNode.node "File" [("id", "1"), ("Name", "y")] []] :=
  tables_first_defined_wins.1 wdoc_dup_ids _ [((1 : Int), ((1 : Int), "a"))] 1
    rfl (by decide)

/-- C4 counterexample: in `wdoc_dup_ids` the later duplicate `Event` (id 1,
data `(2, "b")`) does NOT override the earlier one: the returned table maps
id 1 to the first-defined `(1, "a")`. -/
theorem later_duplicate_does_not_override :
    get_events wdoc_dup_ids = .ok [(1, (1, "a"))] ∧
    map_find (1 : Int) [((1 : Int), ((1 : Int), "a"))] ≠ some (2, "b") := by
  exact ⟨by decide, by decide⟩

/-- C4 (amended): when a later node duplicates an id already present in the
accumulated table, the later duplicate is silently DROPPED (first-defined
wins): removing it from the document leaves the extraction result
unchanged. -/
theorem later_duplicate_dropped :
    (∀ (l1 l2 : List XmlNode) (e2 : XmlNode) (acc m : List (Int × (Int × String)))
      (k : Int) (d : Int × String),
      get_events_loop l1 acc = .ok m →
      e2.name = "Event" → get_id_attribute e2 = .ok k → get_event_data e2 = .ok d →
      (map_find k m).isSome →
      get_events_loop (l1 ++ e2 :: l2) acc = get_events_loop (l1 ++ l2) acc) ∧
    (∀ (tag : String) (l1 l2 : List XmlNode) (e2 : XmlNode) (acc m : List (Int × String))
      (k : Int) (nm : String),
      get_id_to_names_loop tag l1 acc = .ok m →
      e2.name = tag → get_id_attribute e2 = .ok k → get_name_attribute e2 = .ok nm →
      (map_find k m).isSome →
      get_id_to_names_loop tag (l1 ++ e2 :: l2) acc =
        get_id_to_names_loop tag (l1 ++ l2) acc) := by
  constructor
  · intro l1 l2 e2 acc m k d h1 hname hid hd hsome
    rw [get_events_loop_append, get_events_loop_append, h1]
    show get_events_loop (e2 :: l2) m = get_events_loop l2 m
    rw [get_events_loop, if_pos hname, hid, hd]
    show get_events_loop l2 (mapInsert m k d) = get_events_loop l2 m
    rw [mapInsert_present d hsome]
  · intro tag l1 l2 e2 acc m k nm h1 hname hid hnm hsome
    rw [get_id_to_names_loop_append, get_id_to_names_loop_append, h1]
    show get_id_to_names_loop tag (e2 :: l2) m = get_id_to_names_loop tag l2 m
    rw [get_id_to_names_loop, if_pos hname, hid, hnm]
    show get_id_to_names_loop tag l2 (mapInsert m k nm) = get_id_to_names_loop tag l2 m
    rw [mapInsert_present nm hsome]

/-- C4 witness: dropping the duplicate `Event` node leaves the event table
construction unchanged. -/
theorem later_duplicate_dropped_witness :
    get_events_loop
      [XmlNode.node "Event" [("id", "1"), ("numberOfArguments", "1"), ("format", "a")] [],
       XmlNode.node "Event" [("id", "1"), ("numberOfArguments", "2"), ("format", "b")] []] [] =
    get_events_loop
      [XmlNode.node "Event" [("id", "1"), ("numberOfArguments", "1"), ("format", "a")] []] [] :=
  later_duplicate_dropped.1
    [XmlNode.node "Event" [("id", "1"), ("numberOfArguments", "1"), ("format", "a")] []]
    [] (XmlNode.node "Event" [("id", "1"), ("numberOfArguments", "2"), ("format", "b")] [])
    [] [((1 : Int), ((1 : Int), "a"))] 1 (2, "b") (by decide) rfl (by decide) (by decide)
    (by decide)

theorem empty_string_append (s : String) : "" ++ s = s := by
  cases s with
  | mk d => rfl

theorem enum_values_ok (children : List XmlNode) :
    ∀ vals : List (Int × String),
    enum_value_pairs children = some vals →
    (∀ p ∈ vals, 0 ≤ p.1 ∧ p.2 ≠ "") →
    get_enum_values children = .ok vals := by
  induction children with
  | nil =>
    intro vals h _
    rw [enum_value_pairs] at h
    cases h
    rfl
  | cons n rest ih =>
    intro vals h hpos
    rw [enum_value_pairs] at h
    rw [get_enum_values]
    by_cases hn : n.name = "EnumValue"
    · rw [if_pos hn] at h ⊢
      cases hattrs : n.attrs with
      | nil => rw [hattrs] at h; exact absurd h (by simp)
      | cons p tail =>
        obtain ⟨a1, ks⟩ := p
        cases tail with
        | nil => rw [hattrs] at h; exact absurd h (by simp)
        | cons q tail2 =>
          obtain ⟨a2, v⟩ := q
          cases tail2 with
          | cons r tail3 => rw [hattrs] at h; exact absurd h (by simp)
          | nil =>
            rw [hattrs] at h
            have h2 : (if a1 = "Key" ∧ a2 = "Value" then
                match parse_int ks with
                | some k => Option.map (fun ps => (k, v) :: ps) (enum_value_pairs rest)
                | none => none
              else none) = some vals := h
            by_cases hkv : a1 = "Key" ∧ a2 = "Value"
            · rw [if_pos hkv] at h2
              cases hk : parse_int ks with
              | none => rw [hk] at h2; exact absurd h2 (by simp)
              | some k =>
                rw [hk] at h2
                cases hrest : enum_value_pairs rest with
                | none => rw [hrest] at h2; exact absurd h2 (by simp)
                | some ps =>
                  rw [hrest] at h2
                  simp only [Option.map_some] at h2
                  cases h2
                  obtain ⟨hk1, hk2⟩ := hkv
                  subst hk1
                  subst hk2
                  have hst : stoi ks = .ok k := by
                    unfold stoi
                    rw [hk]
                  have hloop : enum_value_attr_loop [("Key", ks), ("Value", v)] (-1) "" =
                      .ok (k, v) := by
                    rw [enum_value_attr_loop, if_pos rfl, hst]
                    show enum_value_attr_loop [("Value", v)] k "" = Except.ok (k, v)
                    rw [enum_value_attr_loop, if_neg (by decide), if_pos rfl]
                    show enum_value_attr_loop [] k ("" ++ v) = Except.ok (k, v)
                    rw [enum_value_attr_loop, empty_string_append]
                  rw [hloop]
                  have hp := hpos (k, v) (List.mem_cons_self _ _)
                  show (if k < 0 ∨ v = "" then
                      Except.error (XmlError.missingEnumValueAttribute n.name)
                    else match get_enum_values rest with
                      | Except.error e => Except.error e
                      | Except.ok tail => Except.ok ((k, v) :: tail)) =
                    Except.ok ((k, v) :: ps)
                  rw [if_neg (by
                    rw [not_or]
                    exact ⟨not_lt.mpr hp.1, hp.2⟩)]
                  rw [ih ps hrest fun p hp2 => hpos p (List.mem_cons_of_mem _ hp2)]
            · rw [if_neg hkv] at h2
              exact absurd h2 (by simp)
    · rw [if_neg hn] at h ⊢
      exact ih vals h hpos

theorem enums_children_loop_spec (children : List XmlNode) :
    ∀ (acc table : List (String × List (Int × String))),
    enums_spec_table children = some table →
    (∀ e ∈ table, ∀ p ∈ e.2, 0 ≤ p.1 ∧ p.2 ≠ "") →
    (table.map Prod.fst).Nodup →
    (∀ e ∈ table, map_find e.1 acc = none) →
    enums_children_loop children acc = .ok (acc ++ table) := by
  induction children with
  | nil =>
    intro acc table h _ _ _
    rw [enums_spec_table] at h
    cases h
    rw [enums_children_loop, List.append_nil]
  | cons c rest ih =>
    intro acc table h hpos hnd hdisj
    rw [enums_spec_table] at h
    rw [enums_children_loop]
    cases hattrs : c.attrs with
    | nil => rw [hattrs] at h; exact absurd h (by simp)
    | cons p tail =>
      obtain ⟨a, nm⟩ := p
      cases tail with
      | cons q tail2 => rw [hattrs] at h; exact absurd h (by simp)
      | nil =>
        rw [hattrs] at h
        cases hev : enum_value_pairs c.children with
        | none => rw [hev] at h; exact absurd h (by simp)
        | some vals =>
          rw [hev] at h
          have h2 : (if a = "Name" then
              Option.map (fun ps => (nm, vals) :: ps) (enums_spec_table rest)
            else none) = some table := h
          by_cases ha : a = "Name"
          · rw [if_pos ha] at h2
            cases hrest : enums_spec_table rest with
            | none => rw [hrest] at h2; exact absurd h2 (by simp)
            | some tbl =>
              rw [hrest] at h2
              have h3 : ((nm, vals) :: tbl) = table := Option.some.inj h2
              cases h3
              subst ha
              have hvals_ok : get_enum_values c.children = .ok vals :=
                enum_values_ok c.children vals hev
                  (hpos (nm, vals) (List.mem_cons_self _ _))
              have hstep : enums_attr_loop c [("Name", nm)] acc =
                  .ok (mapInsert acc nm vals) := by
                show (match get_enum_values c.children with
                  | Except.error e => Except.error e
                  | Except.ok values =>
                    enums_attr_loop c []
                      (mapInsert acc (if ("Name" : String) = "Name" then nm else "")
                        values)) =
                  Except.ok (mapInsert acc nm vals)
                rw [hvals_ok, if_pos rfl]
                rfl
              rw [hstep]
              show enums_children_loop rest (mapInsert acc nm vals) =
                Except.ok (acc ++ (nm, vals) :: tbl)
              have hmf : map_find nm acc = none :=
                hdisj (nm, vals) (List.mem_cons_self _ _)
              rw [mapInsert_absent vals hmf]
              simp only [List.map_cons, List.nodup_cons] at hnd
              have hdisj2 : ∀ e ∈ tbl, map_find e.1 (acc ++ [(nm, vals)]) = none := by
                intro e he
                rw [map_find_append_none _ _ _ (hdisj e (List.mem_cons_of_mem _ he)),
                  map_find_singleton, if_neg]
                intro hne
                refine hnd.1 ?_
                rw [hne]
                exact List.mem_map_of_mem Prod.fst he
              rw [ih (acc ++ [(nm, vals)]) tbl hrest
                (fun e he => hpos e (List.mem_cons_of_mem _ he)) hnd.2 hdisj2,
                List.append_assoc, List.singleton_append]
          · rw [if_neg ha] at h2
            exact absurd h2 (by simp)

theorem get_enums_loop_skip (l : List XmlNode) :
    ∀ acc : List (String × List (Int × String)),
    (∀ n ∈ l, n.name ≠ "Enums") → get_enums_loop l acc = .ok acc := by
  induction l with
  | nil =>
    intro acc _
    rfl
  | cons n rest ih =>
    intro acc hno
    rw [get_enums_loop, if_neg (hno n (List.mem_cons_self _ _))]
    exact ih acc fun m hm => hno m (List.mem_cons_of_mem _ hm)

theorem get_enums_loop_append (l1 l2 : List XmlNode)
    (acc : List (String × List (Int × String))) :
    get_enums_loop (l1 ++ l2) acc =
      match get_enums_loop l1 acc with
      | .error e => .error e
      | .ok a => get_enums_loop l2 a := by
  induction l1 generalizing acc with
  | nil =>
    rw [List.nil_append]
    rfl
  | cons c rest ih =>
    rw [List.cons_append, get_enums_loop, get_enums_loop]
    by_cases hc : c.name = "Enums"
    · rw [if_pos hc, if_pos hc]
      cases enums_children_loop c.children acc with
      | error e => rfl
      | ok a2 => exact ih a2
    · rw [if_neg hc, if_neg hc]
      exact ih acc

/-- C2 (amended): `get_enums` processes every node tagged `Enums` (not a
singular one) and, for each child, inserts one entry PER ATTRIBUTE of that
child — keyed by the attribute's value when the attribute is named `Name`
and by the empty string otherwise — so the original claim holds exactly on
documents whose single `Enums` node has children each carrying the one
attribute `Name` (with distinct names, and well-formed `EnumValue`
children): then every child appears exactly once, keyed by its `Name` value
and mapped to its ordered `(Key, Value)` list (`enums_spec_table`).  An
`EnumValue` with `Key` or `Value` absent still fails with the
missing-`Key`/`Value` error. -/
theorem get_enums_amended :
    (∀ (doc : XmlDoc) (top pre post : List XmlNode) (en : XmlNode)
      (table : List (String × List (Int × String))),
      get_first_node doc = .ok top →
      top = pre ++ en :: post →
      en.name = "Enums" →
      (∀ n ∈ pre, n.name ≠ "Enums") →
      (∀ n ∈ post, n.name ≠ "Enums") →
      enums_spec_table en.children = some table →
      (∀ e ∈ table, ∀ p ∈ e.2, 0 ≤ p.1 ∧ p.2 ≠ "") →
      (table.map Prod.fst).Nodup →
      get_enums doc = .ok table) ∧
    (∀ rest : List XmlNode,
      get_enum_values (XmlNode.node "EnumValue" [] [] :: rest) =
        .error (.missingEnumValueAttribute "EnumValue")) ∧
    (∀ (rest : List XmlNode) (v : String),
      get_enum_values (XmlNode.node "EnumValue" [("Value", v)] [] :: rest) =
        .error (.missingEnumValueAttribute "EnumValue")) ∧
    (∀ (rest : List XmlNode) (ks : String) (k : Int), parse_int ks = some k →
      get_enum_values (XmlNode.node "EnumValue" [("Key", ks)] [] :: rest) =
        .error (.missingEnumValueAttribute "EnumValue")) := by
  refine ⟨?_, ?_, ?_, ?_⟩
  · intro doc top pre post en table htop hsplit hen hpre hpost hspec hpos hnd
    unfold get_enums
    rw [htop, hsplit]
    show get_enums_loop (pre ++ en :: post) [] = Except.ok table
    rw [get_enums_loop_append, get_enums_loop_skip pre [] hpre]
    show get_enums_loop (en :: post) [] = Except.ok table
    rw [get_enums_loop, if_pos hen,
      enums_children_loop_spec en.children [] table hspec hpos hnd (fun e _ => rfl)]
    show get_enums_loop post ([] ++ table) = Except.ok table
    rw [List.nil_append]
    exact get_enums_loop_skip post table hpost
  · intro rest
    rfl
  · intro rest v
    rfl
  · intro rest ks k hk
    have hst : stoi ks = .ok k := by
      unfold stoi
      rw [hk]
    have hloop : enum_value_attr_loop [("Key", ks)] (-1) "" = .ok (k, "") := by
      rw [enum_value_attr_loop, if_pos rfl, hst]
      rfl
    show (match enum_value_attr_loop [("Key", ks)] (-1) "" with
      | Except.error e => Except.error e
      | Except.ok (k, v) =>
        if k < 0 ∨ v = "" then
          Except.error (XmlError.missingEnumValueAttribute "EnumValue")
        else match get_enum_values rest with
          | Except.error e => Except.error e
          | Except.ok tail => Except.ok ((k, v) :: tail)) =
      Except.error (XmlError.missingEnumValueAttribute "EnumValue")
    rw [hloop]
    show (if k < 0 ∨ ("" : String) = "" then
        Except.error (XmlError.missingEnumValueAttribute "EnumValue")
      else match get_enum_values rest with
        | Except.error e => Except.error e
        | Except.ok tail => Except.ok ((k, "") :: tail)) =
      Except.error (XmlError.missingEnumValueAttribute "EnumValue")
    rw [if_pos (Or.inr rfl)]

/-- C2 counterexample: the single enum-group child of
`wdoc_enum_extra_attr` has `Name` value "MyEnum" (and one extra attribute),
yet `get_enums` returns a two-entry map that also contains an entry keyed by
the empty string — not a map in which every child appears exactly once keyed
by its `Name` attribute. -/
theorem get_enums_claim_false :
    get_enums wdoc_enum_extra_attr =
      .ok [("", [(1, "ON")]), ("MyEnum", [(1, "ON")])] ∧
    find_attr (XmlNode.node "MyEnumGroup" [("Extra", "x"), ("Name", "MyEnum")]
      [XmlNode.node "EnumValue" [("Key", "1"), ("Value", "ON")] []]).attrs "Name" =
      some "MyEnum" := by
  exact ⟨by decide, by decide⟩

/-- C2 witness: on a canonical document the enum table is exactly the
name-keyed per-child table. -/
theorem get_enums_amended_witness :
    get_enums wdoc_enums_canonical =
      .ok [("PowerEnum", [(1, "ON"), (0, "OFF")]), ("ModeEnum", [(2, "AUTO")])] :=
  get_enums_amended.1 wdoc_enums_canonical _ [] []
    (XmlNode.node "Enums" []
      [XmlNode.node "EnumName" [("Name", "PowerEnum")]
        [XmlNode.node "EnumValue" [("Key", "1"), ("Value", "ON")] [],
         XmlNode.node "EnumValue" [("Key", "0"), ("Value", "OFF")] []],
       XmlNode.node "EnumName" [("Name", "ModeEnum")]
        [XmlNode.node "EnumValue" [("Key", "2"), ("Value", "AUTO")] []]])
    [("PowerEnum", [(1, "ON"), (0, "OFF")]), ("ModeEnum", [(2, "AUTO")])]
    rfl rfl rfl (fun n hn => by cases hn) (fun n hn => by cases hn) rfl
    (by decide) (by decide)

/-- C10: degenerate attribute values are rejected exactly like absent ones:
an `Event` whose `numberOfArguments` parses negative or whose `format` is
the empty string fails `get_event_data` with the same
missing-event-attribute error raised when the attributes are absent, and an
`EnumValue` whose `Key` parses negative or whose `Value` is empty fails
`get_enum_values` with the same missing-enum-value-attribute error. -/
theorem degenerate_attribute_values_rejected :
    (∀ (idv nv f : String) (n : Int), parse_int nv = some n →
      ((n < 0 ∨ f = "") →
        get_event_data (XmlNode.node "Event"
          [("id", idv), ("numberOfArguments", nv), ("format", f)] []) =
          .error .missingEventAttribute) ∧
      (0 ≤ n → f ≠ "" →
        get_event_data (XmlNode.node "Event"
          [("id", idv), ("numberOfArguments", nv), ("format", f)] []) =
          .ok (n, f))) ∧
    (∀ idv : String,
      get_event_data (XmlNode.node "Event" [("id", idv)] []) =
        .error .missingEventAttribute) ∧
    (∀ (rest : List XmlNode) (ks vs : String) (k : Int), parse_int ks = some k →
      (k < 0 ∨ vs = "") →
      get_enum_values
        (XmlNode.node "EnumValue" [("Key", ks), ("Value", vs)] [] :: rest) =
        .error (.missingEnumValueAttribute "EnumValue")) := by
  refine ⟨?_, ?_, ?_⟩
  · intro idv nv f n hn
    have hst : stoi nv = .ok n := by
      unfold stoi
      rw [hn]
    have hloop : event_attr_loop
        [("id", idv), ("numberOfArguments", nv), ("format", f)] (-1) "" =
        .ok (n, f) := by
      rw [event_attr_loop, if_neg (by decide), if_neg (by decide)]
      rw [event_attr_loop, if_pos rfl, hst]
      show event_attr_loop [("format", f)] n "" = Except.ok (n, f)
      rw [event_attr_loop, if_neg (by decide), if_pos rfl]
      show event_attr_loop [] n ("" ++ f) = Except.ok (n, f)
      rw [event_attr_loop, empty_string_append]
    constructor
    · intro hdeg
      show (match event_attr_loop
          [("id", idv), ("numberOfArguments", nv), ("format", f)] (-1) "" with
        | Except.error e => Except.error e
        | Except.ok (n2, f2) =>
          if n2 < 0 ∨ f2 = "" then Except.error XmlError.missingEventAttribute
          else Except.ok (n2, f2)) = Except.error XmlError.missingEventAttribute
      rw [hloop]
      show (if n < 0 ∨ f = "" then Except.error XmlError.missingEventAttribute
        else Except.ok (n, f)) = Except.error XmlError.missingEventAttribute
      rw [if_pos hdeg]
    · intro hn0 hf
      show (match event_attr_loop
          [("id", idv), ("numberOfArguments", nv), ("format", f)] (-1) "" with
        | Except.error e => Except.error e
        | Except.ok (n2, f2) =>
          if n2 < 0 ∨ f2 = "" then Except.error XmlError.missingEventAttribute
          else Except.ok (n2, f2)) = Except.ok (n, f)
      rw [hloop]
      show (if n < 0 ∨ f = "" then Except.error XmlError.missingEventAttribute
        else Except.ok (n, f)) = Except.ok (n, f)
      rw [if_neg (by
        rw [not_or]
        exact ⟨not_lt.mpr hn0, hf⟩)]
  · intro idv
    rfl
  · intro rest ks vs k hk hdeg
    have hst : stoi ks = .ok k := by
      unfold stoi
      rw [hk]
    have hloop : enum_value_attr_loop [("Key", ks), ("Value", vs)] (-1) "" =
        .ok (k, vs) := by
      rw [enum_value_attr_loop, if_pos rfl, hst]
      show enum_value_attr_loop [("Value", vs)] k "" = Except.ok (k, vs)
      rw [enum_value_attr_loop, if_neg (by decide), if_pos rfl]
      show enum_value_attr_loop [] k ("" ++ vs) = Except.ok (k, vs)
      rw [enum_value_attr_loop, empty_string_append]
    show (match enum_value_attr_loop [("Key", ks), ("Value", vs)] (-1) "" with
      | Except.error e => Except.error e
      | Except.ok (k2, v2) =>
        if k2 < 0 ∨ v2 = "" then
          Except.error (XmlError.missingEnumValueAttribute "EnumValue")
        else match get_enum_values rest with
          | Except.error e => Except.error e
          | Except.ok tail => Except.ok ((k2, v2) :: tail)) =
      Except.error (XmlError.missingEnumValueAttribute "EnumValue")
    rw [hloop]
    show (if k < 0 ∨ vs = "" then
        Except.error (XmlError.missingEnumValueAttribute "EnumValue")
      else match get_enum_values rest with
        | Except.error e => Except.error e
        | Except.ok tail => Except.ok ((k, vs) :: tail)) =
      Except.error (XmlError.missingEnumValueAttribute "EnumValue")
    rw [if_pos hdeg]

/-- C10 witness: a negative `numberOfArguments` and an empty enum `Value`
are both rejected with the corresponding missing-attribute errors. -/
theorem degenerate_attribute_values_rejected_witness :
    get_event_data (XmlNode.node "Event"
      [("id", "7"), ("numberOfArguments", "-1"), ("format", "x")] []) =
      .error .missingEventAttribute ∧
    get_enum_values [XmlNode.node "EnumValue" [("Key", "2"), ("Value", "")] []] =
      .error (.missingEnumValueAttribute "EnumValue") :=
  ⟨(degenerate_attribute_values_rejected.1 "7" "-1" "x" (-1) (by decide)).1
      (Or.inl (by decide)),
   degenerate_attribute_values_rejected.2.2 [] "2" "" 2 (by decide) (Or.inr rfl)⟩

theorem decode_params_go_short (t a : Nat) :
    ∀ (infos : List param_info) (bytes : List Nat),
    bytes.length < widths_total infos →
    decode_params_go t a infos bytes = .error (.truncated_blob t a) := by
  intro infos
  induction infos with
  | nil =>
    intro bytes h
    rw [widths_total] at h
    simp at h
  | cons info rest ih =>
    intro bytes h
    rw [decode_params_go]
    by_cases hw : info.width ≤ bytes.length
    · rw [if_pos hw]
      have hlt : (bytes.drop info.width).length < widths_total rest := by
        rw [List.length_drop]
        rw [widths_total, List.map_cons, List.sum_cons] at h
        rw [widths_total]
        omega
      rw [ih _ hlt]
      rfl
    · rw [if_neg hw]

theorem decode_params_go_long (t a : Nat) :
    ∀ (infos : List param_info) (bytes : List Nat),
    widths_total infos < bytes.length →
    decode_params_go t a infos bytes = .error .trailing_bytes := by
  intro infos
  induction infos with
  | nil =>
    intro bytes h
    cases bytes with
    | nil =>
      rw [widths_total] at h
      simp at h
    | cons b bs => rfl
  | cons info rest ih =>
    intro bytes h
    rw [widths_total, List.map_cons, List.sum_cons] at h
    rw [decode_params_go, if_pos (by omega)]
    have hlt : widths_total rest < (bytes.drop info.width).length := by
      rw [List.length_drop, widths_total]
      omega
    rw [ih _ hlt]
    rfl

theorem decode_params_go_ok_len (t a : Nat) :
    ∀ (infos : List param_info) (bytes : List Nat)
      (res : List (param_info × Nat)),
    decode_params_go t a infos bytes = .ok res →
    bytes.length = widths_total infos := by
  intro infos
  induction infos with
  | nil =>
    intro bytes res h
    cases bytes with
    | nil => rfl
    | cons b bs =>
      rw [decode_params_go] at h
      exact absurd h (by simp)
  | cons info rest ih =>
    intro bytes res h
    rw [decode_params_go] at h
    by_cases hw : info.width ≤ bytes.length
    · rw [if_pos hw] at h
      cases hrec : decode_params_go t a rest (bytes.drop info.width) with
      | error e =>
        rw [hrec] at h
        exact absurd h (by simp [Except.map])
      | ok r =>
        have hlen := ih _ r hrec
        rw [List.length_drop] at hlen
        rw [widths_total, List.map_cons, List.sum_cons]
        rw [widths_total] at hlen
        omega
    · rw [if_neg hw] at h
      exact absurd h (by simp)

/-- C8 (spec-modelled): `generate_message`'s parameter decode is strict on
blob length — it fails with `TruncatedBlob` (carrying the expected total and
actual length) whenever the blob is shorter than the sum of declared
parameter widths, fails with `TrailingBytes` whenever it is longer (even by
one byte), and can succeed only when the blob length equals that sum
exactly. -/
theorem generate_message_blob_length_strict :
    ∀ (enums : List (String × List (Int × String))) (source : String)
      (infos : List param_info) (blob : List Nat),
    (blob.length < widths_total infos →
      generate_message enums source infos blob =
        .error (.truncated_blob (widths_total infos) blob.length)) ∧
    (widths_total infos < blob.length →
      generate_message enums source infos blob = .error .trailing_bytes) ∧
    (∀ msg, generate_message enums source infos blob = .ok msg →
      blob.length = widths_total infos) := by
  intro enums source infos blob
  refine ⟨?_, ?_, ?_⟩
  · intro h
    unfold generate_message decode_params
    rw [decode_params_go_short _ _ infos blob h]
  · intro h
    unfold generate_message decode_params
    rw [decode_params_go_long _ _ infos blob h]
  · intro msg h
    unfold generate_message decode_params at h
    cases hdec : decode_params_go (widths_total infos) blob.length infos blob with
    | error e =>
      rw [hdec] at h
      exact absurd h (by simp)
    | ok decoded => exact decode_params_go_ok_len _ _ infos blob decoded hdec

/-- C8 witness: a two-byte parameter against a one-byte blob is truncated;
against a three-byte blob it has trailing bytes. -/
theorem generate_message_blob_length_strict_witness :
    generate_message [] "power=\x7b0\x7d" [⟨2, param_kind.uint⟩] [42] =
      .error (.truncated_blob 2 1) ∧
    generate_message [] "power=\x7b0\x7d" [⟨2, param_kind.uint⟩] [42, 0, 7] =
      .error .trailing_bytes :=
  ⟨(generate_message_blob_length_strict [] "power=\x7b0\x7d"
      [⟨2, param_kind.uint⟩] [42]).1 (by decide),
   (generate_message_blob_length_strict [] "power=\x7b0\x7d"
      [⟨2, param_kind.uint⟩] [42, 0, 7]).2.1 (by decide)⟩
